import Mathlib

/-!
Verification development for the dcat-dataset-publication-service.

The service moves RDF triples between named graphs of a triple store in
bounded batches, publishes DCAT datasets and drives a persisted release-task
queue.  We shallowly embed the relevant source functions
(src/lib/graph-helpers.js, src/lib/release-task.js, src/lib/dataset.js and
the older variants that ship with the repository) and prove the spec's
claims about them.

Modelling conventions:
  * A named graph is embedded as a `List Triple` in the store's enumeration
    order.  SPARQL `INSERT DATA` has set semantics: inserting a triple that
    is already present leaves the graph unchanged (`insertData`).
  * `SELECT ... LIMIT b OFFSET o` over a static graph returns the slice
    `(g.drop o).take b`.
  * `COUNT(*)` over a graph is the list length (graphs held by the store
    are duplicate-free, stated as a `Nodup` hypothesis where it matters).
  * Batch sizes (`SELECT_BATCH_SIZE`, `UPDATE_BATCH_SIZE`) are parameters;
    the JavaScript loops diverge when the batch size is 0, so theorems
    carry a `0 < b` hypothesis and the embeddings return early on `b = 0`.
-/

namespace DcatPub

/-- An RDF term as it appears in a SPARQL JSON binding consumed by
`toTripleStatement` (src/lib/graph-helpers.js): a `type` tag
("uri" / "literal" / "typed-literal" / anything else), a `value`,
an optional `datatype` and an optional `xml:lang` tag. -/
structure RdfTerm where
  type : String
  value : String
  datatype : Option String
  lang : Option String
deriving DecidableEq, Repr

/-- A triple row as returned by a paged `SELECT ?subject ?predicate ?object`
query (src/lib/graph-helpers.js, getTriples). -/
structure Triple where
  subject : RdfTerm
  predicate : RdfTerm
  object : RdfTerm
deriving DecidableEq, Repr

/-- Ceiling division, the number of batches of size `b` needed to cover `a`
items; matches `Math.ceil(count / limit)` for positive `b`. -/
def ceilDiv (a b : Nat) : Nat := (a + b - 1) / b

/-- A convenient URI term. -/
def uriTerm (v : String) : RdfTerm := ⟨"uri", v, none, none⟩

/-- A convenient triple of URI terms. -/
def uriTriple (s p o : String) : Triple := ⟨uriTerm s, uriTerm p, uriTerm o⟩

/-- `SPARQL INSERT DATA` of a batch of triples into a graph: set semantics,
each triple is appended only when not already present.  This is the effect
on the target graph of one bulk insert issued by `insertInGraph`
(src/lib/graph-helpers.js). -/
def insertData (g : List Triple) (ts : List Triple) : List Triple :=
  ts.foldl (fun acc t => if t ∈ acc then acc else acc ++ [t]) g

/-- The successive fixed-size slices `triples.slice(i, i + UPDATE_BATCH_SIZE)`
taken by the `for` loop of `insertInGraph` (src/lib/graph-helpers.js,
lines 70-83); one element per issued `INSERT DATA` call.  For `b = 0` the
JavaScript loop diverges; the embedding returns `[]`. -/
def chunkAux (b : Nat) : Nat → List Triple → List (List Triple)
  | 0, _ => []
  | fuel + 1, l =>
    if l = [] ∨ b = 0 then []
    else l.take b :: chunkAux b fuel (l.drop b)

/-- The chunking loop entry point: `l.length` iterations of fuel always
suffice, since each round consumes at least one element. -/
def chunkList (b : Nat) (l : List Triple) : List (List Triple) :=
  chunkAux b l.length l

/-- Effect of `insertInGraph(triples, graph)` (src/lib/graph-helpers.js,
lines 70-83) on the target graph: each chunk is inserted by one
`INSERT DATA` call. -/
def insertInGraph (g : List Triple) (ts : List Triple) (b : Nat) : List Triple :=
  (chunkList b ts).foldl insertData g

/-- Number of `INSERT DATA` update calls issued by `insertInGraph`. -/
def numInsertCalls (ts : List Triple) (b : Nat) : Nat := (chunkList b ts).length

/-- The pages read by the `while (offset < count)` loop of `getTriples`
(src/lib/graph-helpers.js, lines 44-68) over a static graph `g`:
page at `offset` is `LIMIT b OFFSET offset`, i.e. `(g.drop offset).take b`.
`count` is the initially measured triple count.  One list element per paged
read. -/
def fetchLoop (g : List Triple) (b : Nat) : Nat → Nat → Nat → List (List Triple)
  | 0, _, _ => []
  | fuel + 1, offset, count =>
    if offset < count ∧ b ≠ 0 then
      ((g.drop offset).take b) :: fetchLoop g b fuel (offset + b) count
    else []

/-- `getTriples(graph)` (src/lib/graph-helpers.js, lines 44-68) over a
static graph: counts the graph, then accumulates the paged reads.  The
`if (count > 0)` guard is subsumed: with `count = 0` the loop body never
runs and the result is `[]`. -/
def getTriples (g : List Triple) (b : Nat) : List Triple :=
  (fetchLoop g b g.length 0 g.length).flatten

/-- Number of paged reads issued by `getTriples` over a static graph. -/
def numPagedReads (g : List Triple) (b : Nat) : Nat :=
  (fetchLoop g b g.length 0 g.length).length

/-- The `while (offset < count)` loop of `removeGraph`
(src/lib/graph-helpers.js, lines 85-111): each iteration issues one
`DELETE ... LIMIT b` that removes `b` of the remaining triples (the
selection is unordered; the embedding removes the first `b` in enumeration
order), and the loop runs until `offset ≥ count` where `count` is the
initially measured triple count. -/
def removeLoop (b : Nat) : Nat → Nat → Nat → List Triple → List Triple
  | 0, _, _, g => g
  | fuel + 1, offset, count, g =>
    if offset < count ∧ b ≠ 0 then removeLoop b fuel (offset + b) count (g.drop b)
    else g

/-- `removeGraph(graph)` (src/lib/graph-helpers.js, lines 85-111). -/
def removeGraph (g : List Triple) (b : Nat) : List Triple :=
  removeLoop b g.length 0 g.length g

/-- The triples of `source` absent from `target` — the set difference
measured by the `FILTER NOT EXISTS` count query of
`compareGraphAndCopyMissingTriples` (src/lib/graph-helpers.js,
lines 146-186). -/
def graphDiff (source target : List Triple) : List Triple :=
  source.filter (fun t => decide (t ∉ target))

/-- The batch loop of `compareGraphAndCopyMissingTriples`: `n` iterations,
each issuing one `INSERT ... WHERE { ... FILTER NOT EXISTS ... } LIMIT b`
that copies `b` triples of the current difference into the target. -/
def copyLoop (source : List Triple) (b : Nat) : Nat → List Triple → List Triple
  | 0, target => target
  | n + 1, target => copyLoop source b n (insertData target ((graphDiff source target).take b))

/-- `compareGraphAndCopyMissingTriples(source, target)`
(src/lib/graph-helpers.js, lines 146-186): counts the difference; when zero
it returns at once having issued no update; otherwise it runs
`Math.ceil(count / limit)` copy batches.  Returns the resulting target graph
together with the number of update (write) calls issued. -/
def compareGraphAndCopyMissingTriples (source target : List Triple) (b : Nat) :
    List Triple × Nat :=
  let count := (graphDiff source target).length
  if count = 0 then (target, 0)
  else (copyLoop source b (ceilDiv count b) target, ceilDiv count b)

/-- `moveGraph(source, target)` (src/lib/graph-helpers.js, lines 15-26):
fetch all source triples, bulk-insert them into the target, verify and
repair, then delete the source graph.  `bs` is `SELECT_BATCH_SIZE`, `bu` is
`UPDATE_BATCH_SIZE`.  Returns the final (source, target) graphs. -/
def moveGraph (source target : List Triple) (bs bu : Nat) :
    List Triple × List Triple :=
  let triples := getTriples source bs
  let target1 := insertInGraph target triples bu
  let target2 := (compareGraphAndCopyMissingTriples source target1 bu).1
  let source1 := removeGraph source bu
  (source1, target2)

/-! ### Arithmetic facts about ceiling division -/

lemma ceilDiv_zero (b : Nat) (hb : 0 < b) : ceilDiv 0 b = 0 := by
  unfold ceilDiv
  exact Nat.div_eq_of_lt (by omega)

lemma ceilDiv_pos_eq (a b : Nat) (hb : 0 < b) (ha : 0 < a) :
    ceilDiv a b = (a - 1) / b + 1 := by
  unfold ceilDiv
  have h1 : a + b - 1 = (a - 1) + b := by omega
  rw [h1, Nat.add_div_right _ hb]

lemma ceilDiv_recurrence (a b : Nat) (hb : 0 < b) (ha : 0 < a) :
    ceilDiv a b = ceilDiv (a - b) b + 1 := by
  by_cases h : a ≤ b
  · have h1 : a - b = 0 := by omega
    rw [h1, ceilDiv_zero b hb, ceilDiv_pos_eq a b hb ha]
    have h2 : (a - 1) / b = 0 := Nat.div_eq_of_lt (by omega)
    omega
  · push_neg at h
    rw [ceilDiv_pos_eq a b hb ha, ceilDiv_pos_eq (a - b) b hb (by omega)]
    have h1 : a - 1 = (a - b - 1) + b := by omega
    rw [h1, Nat.add_div_right _ hb]

/-! ### The paged-read loop of getTriples -/

lemma fetchLoop_flatten (g : List Triple) (b : Nat) (hb : b ≠ 0) (fuel : Nat) :
    ∀ offset count, count - offset ≤ fuel → g.length ≤ count →
      (fetchLoop g b fuel offset count).flatten = g.drop offset := by
  induction fuel with
  | zero =>
    intro offset count hf hc
    rw [List.drop_eq_nil_of_le (by omega)]
    rfl
  | succ fuel ih =>
    intro offset count hf hc
    have hbp : 0 < b := Nat.pos_of_ne_zero hb
    simp only [fetchLoop]
    by_cases h : offset < count
    · rw [if_pos ⟨h, hb⟩, List.flatten_cons, ih (offset + b) count (by omega) hc]
      have h1 : g.drop (offset + b) = (g.drop offset).drop b := by
        rw [List.drop_drop, Nat.add_comm]
      rw [h1, List.take_append_drop]
    · rw [if_neg (fun hcon => h hcon.1), List.flatten_nil]
      exact (List.drop_eq_nil_of_le (by omega)).symm

lemma fetchLoop_length (g : List Triple) (b : Nat) (hb : b ≠ 0) (fuel : Nat) :
    ∀ offset count, count - offset ≤ fuel →
      (fetchLoop g b fuel offset count).length = ceilDiv (count - offset) b := by
  induction fuel with
  | zero =>
    intro offset count hf
    have h1 : count - offset = 0 := by omega
    rw [h1, ceilDiv_zero b (Nat.pos_of_ne_zero hb)]
    rfl
  | succ fuel ih =>
    intro offset count hf
    have hbp : 0 < b := Nat.pos_of_ne_zero hb
    simp only [fetchLoop]
    by_cases h : offset < count
    · rw [if_pos ⟨h, hb⟩, List.length_cons, ih (offset + b) count (by omega)]
      have h1 : count - (offset + b) = (count - offset) - b := by omega
      rw [h1, ceilDiv_recurrence (count - offset) b hbp (by omega)]
    · rw [if_neg (fun hcon => h hcon.1), List.length_nil]
      have h1 : count - offset = 0 := by omega
      rw [h1, ceilDiv_zero b hbp]

/-! ### The chunking loop of insertInGraph -/

lemma chunkAux_flatten (b : Nat) (hb : b ≠ 0) (fuel : Nat) :
    ∀ l : List Triple, l.length ≤ fuel → (chunkAux b fuel l).flatten = l := by
  induction fuel with
  | zero =>
    intro l hl
    have h1 : l = [] := List.length_eq_zero.mp (by omega)
    rw [h1]
    rfl
  | succ fuel ih =>
    intro l hl
    have hbp : 0 < b := Nat.pos_of_ne_zero hb
    simp only [chunkAux]
    by_cases h : l = []
    · rw [if_pos (Or.inl h), List.flatten_nil, h]
    · have hlen : l.length ≠ 0 := fun hl0 => h (List.length_eq_zero.mp hl0)
      rw [if_neg (by simp [h, hb]), List.flatten_cons,
          ih (l.drop b) (by simp only [List.length_drop]; omega),
          List.take_append_drop]

lemma chunkList_flatten (b : Nat) (hb : b ≠ 0) (l : List Triple) :
    (chunkList b l).flatten = l :=
  chunkAux_flatten b hb l.length l (le_refl _)

lemma chunkAux_length (b : Nat) (hb : b ≠ 0) (fuel : Nat) :
    ∀ l : List Triple, l.length ≤ fuel → (chunkAux b fuel l).length = ceilDiv l.length b := by
  induction fuel with
  | zero =>
    intro l hl
    have h1 : l = [] := List.length_eq_zero.mp (by omega)
    subst h1
    simp only [List.length_nil, ceilDiv_zero b (Nat.pos_of_ne_zero hb)]
    rfl
  | succ fuel ih =>
    intro l hl
    have hbp : 0 < b := Nat.pos_of_ne_zero hb
    simp only [chunkAux]
    by_cases h : l = []
    · subst h
      simp only [List.length_nil, ceilDiv_zero b hbp]
      rfl
    · have hlen : l.length ≠ 0 := fun hl0 => h (List.length_eq_zero.mp hl0)
      rw [if_neg (by simp [h, hb]), List.length_cons,
          ih (l.drop b) (by simp only [List.length_drop]; omega), List.length_drop,
          ceilDiv_recurrence l.length b hbp (by omega)]

lemma chunkList_length (b : Nat) (hb : b ≠ 0) (l : List Triple) :
    (chunkList b l).length = ceilDiv l.length b :=
  chunkAux_length b hb l.length l (le_refl _)

lemma fetchLoop_eq_chunkAux (g : List Triple) (b : Nat) (hb : b ≠ 0) (fuel : Nat) :
    ∀ offset, fetchLoop g b fuel offset g.length = chunkAux b fuel (g.drop offset) := by
  induction fuel with
  | zero => intro offset; rfl
  | succ fuel ih =>
    intro offset
    simp only [fetchLoop, chunkAux]
    by_cases h : offset < g.length
    · have hne : g.drop offset ≠ [] := by
        intro hnil
        have h2 := congrArg List.length hnil
        simp only [List.length_drop, List.length_nil] at h2
        omega
      rw [if_pos ⟨h, hb⟩, if_neg (by simp [hne, hb]), ih (offset + b)]
      have h1 : g.drop (offset + b) = (g.drop offset).drop b := by
        rw [List.drop_drop, Nat.add_comm]
      rw [h1]
    · have hnil : g.drop offset = [] := List.drop_eq_nil_of_le (by omega)
      rw [if_neg (fun hcon => h hcon.1), hnil, if_pos (Or.inl rfl)]

/-! ### Set-semantics inserts -/

lemma insertData_cons (g : List Triple) (t : Triple) (ts : List Triple) :
    insertData g (t :: ts) = insertData (if t ∈ g then g else g ++ [t]) ts := by
  simp [insertData]

lemma mem_insertData (g ts : List Triple) (u : Triple) :
    u ∈ insertData g ts ↔ u ∈ g ∨ u ∈ ts := by
  induction ts generalizing g with
  | nil => simp [insertData]
  | cons t ts ih =>
    rw [insertData_cons]
    by_cases h : t ∈ g
    · rw [if_pos h, ih]
      constructor
      · rintro (h1 | h1)
        · exact Or.inl h1
        · exact Or.inr (List.mem_cons_of_mem t h1)
      · rintro (h1 | h1)
        · exact Or.inl h1
        · rcases List.mem_cons.mp h1 with h2 | h2
          · exact Or.inl (h2 ▸ h)
          · exact Or.inr h2
    · rw [if_neg h, ih]
      simp only [List.mem_append, List.mem_singleton, List.mem_cons]
      tauto

lemma insertData_eq_append (g ts : List Triple) (hnd : ts.Nodup)
    (hdisj : ∀ u ∈ ts, u ∉ g) : insertData g ts = g ++ ts := by
  induction ts generalizing g with
  | nil => simp [insertData]
  | cons t ts ih =>
    rw [insertData_cons, if_neg (hdisj t (List.mem_cons_self t ts))]
    rw [ih (g ++ [t]) (List.Nodup.of_cons hnd)]
    · simp
    · intro u hu
      simp only [List.mem_append, List.mem_singleton]
      rintro (h1 | h1)
      · exact hdisj u (List.mem_cons_of_mem t hu) h1
      · exact (List.nodup_cons.mp hnd).1 (h1 ▸ hu)

lemma insertData_append (g l1 l2 : List Triple) :
    insertData g (l1 ++ l2) = insertData (insertData g l1) l2 := by
  simp [insertData, List.foldl_append]

lemma foldl_insertData (g : List Triple) (bs : List (List Triple)) :
    bs.foldl insertData g = insertData g bs.flatten := by
  induction bs generalizing g with
  | nil => simp [insertData]
  | cons c bs ih =>
    simp only [List.foldl_cons, List.flatten_cons]
    rw [ih, insertData_append]

lemma insertInGraph_eq (g ts : List Triple) (b : Nat) (hb : b ≠ 0) :
    insertInGraph g ts b = insertData g ts := by
  unfold insertInGraph
  rw [foldl_insertData, chunkList_flatten b hb]

/-! ### The delete loop of removeGraph -/

lemma removeLoop_eq_nil (b : Nat) (hb : b ≠ 0) (fuel : Nat) :
    ∀ offset count (g : List Triple), count - offset ≤ fuel →
      g.length ≤ count - offset → removeLoop b fuel offset count g = [] := by
  induction fuel with
  | zero =>
    intro offset count g hf hg
    have h1 : g = [] := List.length_eq_zero.mp (by omega)
    rw [h1]
    rfl
  | succ fuel ih =>
    intro offset count g hf hg
    have hbp : 0 < b := Nat.pos_of_ne_zero hb
    simp only [removeLoop]
    by_cases h : offset < count
    · rw [if_pos ⟨h, hb⟩]
      exact ih (offset + b) count (g.drop b) (by omega)
        (by simp only [List.length_drop]; omega)
    · rw [if_neg (fun hcon => h hcon.1)]
      exact List.length_eq_zero.mp (by omega)

lemma removeGraph_eq_nil (g : List Triple) (b : Nat) (hb : b ≠ 0) :
    removeGraph g b = [] :=
  removeLoop_eq_nil b hb g.length 0 g.length g (by omega) (by omega)

/-! ### The verification pass -/

lemma graphDiff_eq_nil (source target : List Triple)
    (h : ∀ t ∈ source, t ∈ target) : graphDiff source target = [] := by
  unfold graphDiff
  rw [List.filter_eq_nil_iff]
  intro t ht
  simp [h t ht]

lemma compare_no_diff (source target : List Triple)
    (h : graphDiff source target = []) (b : Nat) :
    compareGraphAndCopyMissingTriples source target b = (target, 0) := by
  unfold compareGraphAndCopyMissingTriples
  simp [h]

/-! ### Claim C1: moveGraph transfers the full triple count -/

/-- C1, counterexample to the claim as stated: for a target graph that is not
empty before the move, the post-move triple count of the target does not
equal the pre-move count of the source.  Here the source graph is empty and
the target holds one triple: after `moveGraph` the target still holds that
triple (count 1), while the pre-move source count is 0. -/
theorem claim1_counterexample :
    ¬ (((moveGraph [] [uriTriple "s" "p" "o"] 1000 10).2).length =
        ([] : List Triple).length) := by decide

/-- C1 (amended: the target graph must be empty before the move, as it is for
the transient graphs this service moves): for every duplicate-free source
graph and positive batch sizes, running `moveGraph(G, T)` to completion
makes the triple count of `T` equal to the pre-move triple count of `G`, and
makes the triple count of `G` zero. -/
theorem claim1_moveGraph_move_counts (source : List Triple) (bs bu : Nat)
    (hbs : 0 < bs) (hbu : 0 < bu) (hnd : source.Nodup) :
    ((moveGraph source [] bs bu).2).length = source.length ∧
    ((moveGraph source [] bs bu).1).length = 0 := by
  have hbs0 : bs ≠ 0 := by omega
  have hbu0 : bu ≠ 0 := by omega
  have hget : getTriples source bs = source := by
    unfold getTriples
    rw [fetchLoop_flatten source bs hbs0 source.length 0 source.length (by omega) (le_refl _), List.drop_zero]
  have hins : insertInGraph [] (getTriples source bs) bu = source := by
    rw [hget, insertInGraph_eq [] source bu hbu0,
        insertData_eq_append [] source hnd (by intro u _ hu; simp at hu),
        List.nil_append]
  have hdiff : graphDiff source (insertInGraph [] (getTriples source bs) bu) = [] := by
    rw [hins]
    exact graphDiff_eq_nil source source (fun t ht => ht)
  constructor
  · show (compareGraphAndCopyMissingTriples source
      (insertInGraph [] (getTriples source bs) bu) bu).1.length = source.length
    rw [compare_no_diff _ _ hdiff, hins]
  · show (removeGraph source bu).length = 0
    rw [removeGraph_eq_nil source bu hbu0]
    rfl

/-- C1 witness: the amended theorem at a concrete two-triple source graph and
the default batch sizes (SELECT_BATCH_SIZE = 1000, UPDATE_BATCH_SIZE = 10). -/
theorem claim1_witness :
    (0 : Nat) < 1000 ∧ (0 : Nat) < 10 ∧
    ([uriTriple "a" "p" "o", uriTriple "b" "p" "o"] : List Triple).Nodup ∧
    ((moveGraph [uriTriple "a" "p" "o", uriTriple "b" "p" "o"] [] 1000 10).2).length = 2 ∧
    ((moveGraph [uriTriple "a" "p" "o", uriTriple "b" "p" "o"] [] 1000 10).1).length = 0 :=
  ⟨by decide, by decide, by decide,
    ((claim1_moveGraph_move_counts
      [uriTriple "a" "p" "o", uriTriple "b" "p" "o"] 1000 10
      (by decide) (by decide) (by decide)).1).trans (by decide),
    (claim1_moveGraph_move_counts
      [uriTriple "a" "p" "o", uriTriple "b" "p" "o"] 1000 10
      (by decide) (by decide) (by decide)).2⟩

/-! ### Claim C6: the verification pass is idempotent -/

/-- C6: `verifyAndRepair` (compareGraphAndCopyMissingTriples) is idempotent:
whenever the set difference between source and target is empty, a run issues
zero write (update) operations and leaves the target untouched, so running
it twice in a row after the difference is empty performs no additional
writes (both runs return write count 0). -/
theorem claim6_verifyAndRepair_idempotent (source target : List Triple) (b : Nat)
    (h : (graphDiff source target).length = 0) :
    compareGraphAndCopyMissingTriples source target b = (target, 0) ∧
    compareGraphAndCopyMissingTriples source
      (compareGraphAndCopyMissingTriples source target b).1 b = (target, 0) := by
  have hnil : graphDiff source target = [] := List.length_eq_zero.mp h
  have h1 := compare_no_diff source target hnil b
  refine ⟨h1, ?_⟩
  rw [h1]
  exact compare_no_diff source target hnil b

/-- C6 witness: the theorem at a concrete one-triple source already contained
in the target, with the default UPDATE_BATCH_SIZE = 10. -/
theorem claim6_witness :
    (graphDiff [uriTriple "s" "p" "o"] [uriTriple "s" "p" "o"]).length = 0 ∧
    compareGraphAndCopyMissingTriples [uriTriple "s" "p" "o"]
      [uriTriple "s" "p" "o"] 10 = ([uriTriple "s" "p" "o"], 0) :=
  ⟨by decide,
    (claim6_verifyAndRepair_idempotent [uriTriple "s" "p" "o"]
      [uriTriple "s" "p" "o"] 10 (by decide)).1⟩

/-! ### The release-task queue (src/lib/release-task.js) -/

/-- The release-task statuses of `RELEASE_TASK_STATUSES` (src/config.js)
that this service reads and writes. -/
inductive TaskStatus where
  | readyForRelease
  | releasing
  | success
  | failed
deriving DecidableEq, Repr

/-- A persisted `ext:ReleaseTask` record as read by `getNextReleaseTask`
(src/lib/release-task.js): URI, source graph, creation timestamp and
current status. -/
structure Task where
  uri : String
  source : String
  created : Nat
  status : TaskStatus
deriving DecidableEq, Repr

/-- The `ORDER BY ?created LIMIT 1` pick over a non-empty result list:
the binding with the smallest `created`, the first such in enumeration
order. -/
def minByCreated (t : Task) (ts : List Task) : Task :=
  ts.foldl (fun best u => if u.created < best.created then u else best) t

/-- `getNextReleaseTask()` (src/lib/release-task.js, lines 174-203): selects
the `ext:ReleaseTask` with status ready-for-release and the earliest
`created`, but the `FILTER NOT EXISTS` clause suppresses every result as
soon as any task in the queue has status failed. -/
def getNextReleaseTask (q : List Task) : Option Task :=
  if q.any (fun t => t.status == TaskStatus.failed) then none
  else
    match q.filter (fun t => t.status == TaskStatus.readyForRelease) with
    | [] => none
    | t :: ts => some (minByCreated t ts)

lemma minByCreated_cons (t v : Task) (ts : List Task) :
    minByCreated t (v :: ts) =
      minByCreated (if v.created < t.created then v else t) ts := by
  simp [minByCreated]

lemma minByCreated_mem (t : Task) (ts : List Task) :
    minByCreated t ts ∈ t :: ts := by
  induction ts generalizing t with
  | nil => simp [minByCreated]
  | cons u ts ih =>
    rw [minByCreated_cons]
    by_cases h : u.created < t.created
    · rw [if_pos h]
      have h1 := ih u
      simp only [List.mem_cons] at h1 ⊢
      tauto
    · rw [if_neg h]
      have h1 := ih t
      simp only [List.mem_cons] at h1 ⊢
      tauto

lemma minByCreated_le (t : Task) (ts : List Task) :
    ∀ u ∈ t :: ts, (minByCreated t ts).created ≤ u.created := by
  induction ts generalizing t with
  | nil =>
    intro u hu
    simp only [List.mem_cons, List.not_mem_nil, or_false] at hu
    simp [minByCreated, hu]
  | cons v ts ih =>
    intro u hu
    rw [minByCreated_cons]
    simp only [List.mem_cons] at hu
    by_cases h : v.created < t.created
    · rw [if_pos h]
      have hv := ih v v (List.mem_cons_self v ts)
      rcases hu with h1 | h1 | h1
      · subst h1; omega
      · subst h1; exact hv
      · exact ih v u (List.mem_cons_of_mem v h1)
    · rw [if_neg h]
      have ht := ih t t (List.mem_cons_self t ts)
      rcases hu with h1 | h1 | h1
      · subst h1; exact ht
      · subst h1; omega
      · exact ih t u (List.mem_cons_of_mem t h1)

/-! ### Claim C2: next-task selection -/

/-- C2: for every queue state, `getNextReleaseTask` returns no task at all
whenever any task in the queue has status failed (so once a task fails, no
task — in particular none created later — is selected until that status is
externally reset); any task it does return is a queued task with status
ready-for-release whose `created` timestamp is the earliest among all
ready tasks; and when no task has failed and some ready task exists, a
task is returned. -/
theorem claim2_next_task_selection (q : List Task) :
    ((∃ t ∈ q, t.status = TaskStatus.failed) → getNextReleaseTask q = none) ∧
    (∀ t, getNextReleaseTask q = some t →
      t ∈ q ∧ t.status = TaskStatus.readyForRelease ∧
      ∀ u ∈ q, u.status = TaskStatus.readyForRelease → t.created ≤ u.created) ∧
    ((¬ ∃ t ∈ q, t.status = TaskStatus.failed) →
      (∃ t ∈ q, t.status = TaskStatus.readyForRelease) →
      ∃ t, getNextReleaseTask q = some t) := by
  refine ⟨?_, ?_, ?_⟩
  · rintro ⟨t, ht, hst⟩
    unfold getNextReleaseTask
    rw [if_pos]
    rw [List.any_eq_true]
    exact ⟨t, ht, by simp [hst]⟩
  · intro t ht
    unfold getNextReleaseTask at ht
    by_cases hfail : q.any (fun t => t.status == TaskStatus.failed)
    · rw [if_pos hfail] at ht
      exact absurd ht (by simp)
    · rw [if_neg hfail] at ht
      cases hq : q.filter (fun t => t.status == TaskStatus.readyForRelease) with
      | nil => rw [hq] at ht; exact absurd ht (by simp)
      | cons r rs =>
        rw [hq] at ht
        have hteq : t = minByCreated r rs := by
          simpa using ht.symm
        have hmem : t ∈ r :: rs := hteq ▸ minByCreated_mem r rs
        have hmemf : t ∈ q.filter (fun t => t.status == TaskStatus.readyForRelease) :=
          hq ▸ hmem
        have hfilt := List.mem_filter.mp hmemf
        refine ⟨hfilt.1, by simpa using hfilt.2, ?_⟩
        intro u hu hust
        have humem : u ∈ r :: rs := by
          rw [← hq]
          exact List.mem_filter.mpr ⟨hu, by simp [hust]⟩
        exact hteq ▸ minByCreated_le r rs u humem
  · intro hnofail hready
    unfold getNextReleaseTask
    rw [if_neg]
    · cases hq : q.filter (fun t => t.status == TaskStatus.readyForRelease) with
      | nil =>
        exfalso
        rcases hready with ⟨t, ht, hst⟩
        have : t ∈ q.filter (fun t => t.status == TaskStatus.readyForRelease) :=
          List.mem_filter.mpr ⟨ht, by simp [hst]⟩
        rw [hq] at this
        exact List.not_mem_nil t this
      | cons r rs => exact ⟨minByCreated r rs, rfl⟩
    · intro hcon
      rw [List.any_eq_true] at hcon
      rcases hcon with ⟨t, ht, hst⟩
      exact hnofail ⟨t, ht, by simpa using hst⟩

/-- C2 witness: a concrete three-task queue with no failure — the earliest
ready task is picked — applied through the selection theorem. -/
theorem claim2_witness :
    (getNextReleaseTask
        [⟨"t2", "g2", 20, TaskStatus.readyForRelease⟩,
         ⟨"t1", "g1", 10, TaskStatus.readyForRelease⟩,
         ⟨"t3", "g3", 30, TaskStatus.success⟩] =
      some ⟨"t1", "g1", 10, TaskStatus.readyForRelease⟩) ∧
    (⟨"t1", "g1", 10, TaskStatus.readyForRelease⟩ : Task).status =
        TaskStatus.readyForRelease ∧
    (⟨"t1", "g1", 10, TaskStatus.readyForRelease⟩ : Task) ∈
      [⟨"t2", "g2", 20, TaskStatus.readyForRelease⟩,
       ⟨"t1", "g1", 10, TaskStatus.readyForRelease⟩,
       ⟨"t3", "g3", 30, TaskStatus.success⟩] :=
  ⟨by decide,
    ((claim2_next_task_selection
      [⟨"t2", "g2", 20, TaskStatus.readyForRelease⟩,
       ⟨"t1", "g1", 10, TaskStatus.readyForRelease⟩,
       ⟨"t3", "g3", 30, TaskStatus.success⟩]).2.1
      ⟨"t1", "g1", 10, TaskStatus.readyForRelease⟩ (by decide)).2.1,
    ((claim2_next_task_selection
      [⟨"t2", "g2", 20, TaskStatus.readyForRelease⟩,
       ⟨"t1", "g1", 10, TaskStatus.readyForRelease⟩,
       ⟨"t3", "g3", 30, TaskStatus.success⟩]).2.1
      ⟨"t1", "g1", 10, TaskStatus.readyForRelease⟩ (by decide)).1⟩

/-! ### Claim C4: outcomes of ReleaseTask.execute -/

/-- Observable events of `ReleaseTask.execute()`
(src/lib/release-task.js, lines 67-86): statuses persisted through
`persistStatus`, the failure email created by `createEmailOnFailure`, and
the start of the next task returned by `getNextReleaseTask`. -/
inductive Ev where
  | persisted (status : TaskStatus)
  | emailSent
  | startedNext (uri : String)
deriving DecidableEq, Repr

/-- The event trace of `ReleaseTask.execute()` (src/lib/release-task.js,
lines 67-86).  `pipelineOk` tells whether `this.release()` (the
prepare/deprecate/release pipeline) runs to completion or throws;
`queueAfterSuccess` is the queue state consulted by `getNextReleaseTask`
after the success status is persisted.  On success: persist releasing, run
the pipeline, persist success, then select and start the next eligible
task.  On an exception: `closeWithFailure` persists failed, then the
failure notification is created; no next task is selected. -/
def executeTrace (pipelineOk : Bool) (queueAfterSuccess : List Task) : List Ev :=
  if pipelineOk then
    [Ev.persisted TaskStatus.releasing, Ev.persisted TaskStatus.success] ++
      (match getNextReleaseTask queueAfterSuccess with
       | some t => [Ev.startedNext t.uri]
       | none => [])
  else
    [Ev.persisted TaskStatus.releasing, Ev.persisted TaskStatus.failed, Ev.emailSent]

/-- C4: in every execution of a release task, the first persisted status is
releasing; when the pipeline completes, success is persisted and the next
eligible task (when one exists) is started; when the pipeline raises, the
trace is exactly releasing-persisted, failed-persisted, failure email — a
failure notification is emitted and no further task is started. -/
theorem claim4_execute_outcomes (q : List Task) :
    (executeTrace true q).head? = some (Ev.persisted TaskStatus.releasing) ∧
    (executeTrace false q).head? = some (Ev.persisted TaskStatus.releasing) ∧
    Ev.persisted TaskStatus.success ∈ executeTrace true q ∧
    (∀ t, getNextReleaseTask q = some t →
      Ev.startedNext t.uri ∈ executeTrace true q) ∧
    executeTrace false q =
      [Ev.persisted TaskStatus.releasing, Ev.persisted TaskStatus.failed,
        Ev.emailSent] ∧
    Ev.emailSent ∈ executeTrace false q ∧
    (∀ u, Ev.startedNext u ∉ executeTrace false q) := by
  refine ⟨?_, by simp [executeTrace], by simp [executeTrace], ?_, by simp [executeTrace],
    by simp [executeTrace], by simp [executeTrace]⟩
  · cases hn : getNextReleaseTask q <;> simp [executeTrace, hn]
  · intro t ht
    simp [executeTrace, ht]

/-- C4 witness: the theorem at a concrete one-ready-task queue; the success
trace starts that task, the failure trace emits the email and starts
nothing. -/
theorem claim4_witness :
    (getNextReleaseTask [⟨"t1", "g1", 10, TaskStatus.readyForRelease⟩] =
      some ⟨"t1", "g1", 10, TaskStatus.readyForRelease⟩) ∧
    Ev.startedNext "t1" ∈
      executeTrace true [⟨"t1", "g1", 10, TaskStatus.readyForRelease⟩] ∧
    Ev.persisted TaskStatus.success ∈
      executeTrace true [⟨"t1", "g1", 10, TaskStatus.readyForRelease⟩] ∧
    (Ev.startedNext "t1" ∉
      executeTrace false [⟨"t1", "g1", 10, TaskStatus.readyForRelease⟩]) :=
  ⟨by decide,
    (claim4_execute_outcomes [⟨"t1", "g1", 10, TaskStatus.readyForRelease⟩]).2.2.2.1
      ⟨"t1", "g1", 10, TaskStatus.readyForRelease⟩ (by decide),
    (claim4_execute_outcomes [⟨"t1", "g1", 10, TaskStatus.readyForRelease⟩]).2.2.1,
    (claim4_execute_outcomes [⟨"t1", "g1", 10, TaskStatus.readyForRelease⟩]).2.2.2.2.2.2
      "t1"⟩

/-! ### Claim C5: the dataset record is inserted last -/

/-- The store operations performed while executing a release, in program
order: `Dataset.prepare` (src/lib/dataset.js, lines 34-41), then
`ReleaseTask.release` links the dataset and deprecates the previous one
(src/lib/release-task.js, lines 97-112), then `Dataset.release`
(src/lib/dataset.js, lines 55-59) inserts the dataset record, adds it to
the catalog and moves the staging graph to the public graph. -/
inductive Step where
  | generateTtlFile
  | generateAttachmentDistributions
  | generateTtlDistribution
  | linkDataset
  | deprecatePrevious
  | generateDataset
  | addToCatalog
  | moveGraphToPublic
deriving DecidableEq, Repr

/-- `Dataset.prepare()` (src/lib/dataset.js, lines 34-41): snapshot TTL
file, attachment distributions, TTL distribution — in that order. -/
def prepareSteps : List Step :=
  [Step.generateTtlFile, Step.generateAttachmentDistributions,
    Step.generateTtlDistribution]

/-- `Dataset.release()` (src/lib/dataset.js, lines 55-59): insert the
dataset record, add it to the catalog, move the graph. -/
def datasetReleaseSteps : List Step :=
  [Step.generateDataset, Step.addToCatalog, Step.moveGraphToPublic]

/-- `ReleaseTask.release()` (src/lib/release-task.js, lines 97-112):
prepare, link the dataset to the task, deprecate the previous dataset,
then release. -/
def taskReleaseSteps : List Step :=
  prepareSteps ++ [Step.linkDataset, Step.deprecatePrevious] ++ datasetReleaseSteps

/-- C5: within the release pipeline's store-operation order, the dataset
record insert (`generateDataset`) and the catalog insert (`addToCatalog`)
both come strictly after the snapshot TTL export and after every
distribution insert, so no consumer can observe a dataset record whose
distributions or snapshot are missing. -/
theorem claim5_dataset_visible_last :
    taskReleaseSteps.indexOf Step.generateTtlFile <
        taskReleaseSteps.indexOf Step.generateDataset ∧
    taskReleaseSteps.indexOf Step.generateAttachmentDistributions <
        taskReleaseSteps.indexOf Step.generateDataset ∧
    taskReleaseSteps.indexOf Step.generateTtlDistribution <
        taskReleaseSteps.indexOf Step.generateDataset ∧
    taskReleaseSteps.indexOf Step.generateTtlFile <
        taskReleaseSteps.indexOf Step.addToCatalog ∧
    taskReleaseSteps.indexOf Step.generateAttachmentDistributions <
        taskReleaseSteps.indexOf Step.addToCatalog ∧
    taskReleaseSteps.indexOf Step.generateTtlDistribution <
        taskReleaseSteps.indexOf Step.addToCatalog ∧
    Step.generateTtlFile ∈ taskReleaseSteps ∧
    Step.generateDataset ∈ taskReleaseSteps := by decide

/-! ### Claim C10: persistStatus keeps at most one status triple -/

/-- `adms:status`, the task status predicate
(src/lib/release-task.js, persistStatus). -/
def admsStatus : String := "http://www.w3.org/ns/adms#status"

/-- `rdf:type` (the `a` keyword in the SPARQL queries). -/
def rdfType : String := "http://www.w3.org/1999/02/22-rdf-syntax-ns#type"

/-- `ext:ReleaseTask`, the task class checked by the INSERT's WHERE clause
(src/lib/release-task.js, persistStatus). -/
def extReleaseTask : String := "http://mu.semte.ch/vocabularies/ext/ReleaseTask"

/-- Does this triple state a status for the task `uri`?  This is the
pattern of the `DELETE WHERE` in `persistStatus`
(src/lib/release-task.js, lines 36-44). -/
def statusCond (uri : String) (t : Triple) : Prop :=
  t.subject = uriTerm uri ∧ t.predicate = uriTerm admsStatus

instance (uri : String) (t : Triple) : Decidable (statusCond uri t) := by
  unfold statusCond
  infer_instance

/-- The status triples of the task `uri` in the application graph. -/
def statusTriples (g : List Triple) (uri : String) : List Triple :=
  g.filter (fun t => decide (statusCond uri t))

/-- `ReleaseTask.persistStatus(status)` (src/lib/release-task.js,
lines 33-60) acting on the application graph: first a `DELETE WHERE`
removes every `adms:status` triple of the task, then an `INSERT ... WHERE`
adds the new status triple only when the task record is typed
`ext:ReleaseTask` in the graph. -/
def persistStatus (g : List Triple) (uri status : String) : List Triple :=
  let g1 := g.filter (fun t => decide (¬ statusCond uri t))
  if uriTriple uri rdfType extReleaseTask ∈ g1 then
    insertData g1 [uriTriple uri admsStatus status]
  else g1

/-- C10: after any completed `persistStatus` call the task record carries at
most one `adms:status` triple: every pre-existing status triple is deleted
first; when the record is typed `ext:ReleaseTask` the one new status triple
is present, and when the type triple is absent the task ends with no status
triple at all. -/
theorem claim10_persistStatus_unique (g : List Triple) (uri status : String) :
    (statusTriples (persistStatus g uri status) uri).length ≤ 1 ∧
    (uriTriple uri rdfType extReleaseTask ∉ g →
      statusTriples (persistStatus g uri status) uri = []) ∧
    (uriTriple uri rdfType extReleaseTask ∈ g →
      statusTriples (persistStatus g uri status) uri =
        [uriTriple uri admsStatus status]) := by
  have hnotstat : ¬ statusCond uri (uriTriple uri rdfType extReleaseTask) := by
    intro hcon
    have h1 := hcon.2
    simp only [uriTriple, uriTerm] at h1
    have h2 : rdfType = admsStatus := congrArg RdfTerm.value h1
    exact absurd h2 (by decide)
  have hmem_g1 : uriTriple uri rdfType extReleaseTask ∈
      g.filter (fun t => decide (¬ statusCond uri t)) ↔
      uriTriple uri rdfType extReleaseTask ∈ g := by
    rw [List.mem_filter]
    simp [hnotstat]
  have hstat_g1 : statusTriples (g.filter (fun t => decide (¬ statusCond uri t))) uri
      = [] := by
    unfold statusTriples
    rw [List.filter_eq_nil_iff]
    intro t ht
    have h1 := (List.mem_filter.mp ht).2
    simp only [decide_eq_true_eq] at h1
    simp [h1]
  have hnewstat : statusCond uri (uriTriple uri admsStatus status) := by
    exact ⟨rfl, rfl⟩
  unfold persistStatus
  by_cases hty : uriTriple uri rdfType extReleaseTask ∈
      g.filter (fun t => decide (¬ statusCond uri t))
  · rw [if_pos hty]
    have hnotin : uriTriple uri admsStatus status ∉
        g.filter (fun t => decide (¬ statusCond uri t)) := by
      intro hcon
      have h1 := (List.mem_filter.mp hcon).2
      simp only [decide_eq_true_eq] at h1
      exact h1 hnewstat
    rw [insertData_eq_append _ _ (List.nodup_singleton _)
      (by intro u hu; simp only [List.mem_singleton] at hu; exact hu ▸ hnotin)]
    have happ : statusTriples
        (g.filter (fun t => decide (¬ statusCond uri t)) ++
          [uriTriple uri admsStatus status]) uri =
        [uriTriple uri admsStatus status] := by
      unfold statusTriples
      rw [List.filter_append]
      unfold statusTriples at hstat_g1
      rw [hstat_g1, List.nil_append]
      simp [hnewstat]
    refine ⟨?_, ?_, fun _ => happ⟩
    · rw [happ]
      exact Nat.le_refl 1
    · intro hnot
      exact absurd (hmem_g1.mp hty) hnot
  · rw [if_neg hty]
    refine ⟨?_, fun _ => hstat_g1, ?_⟩
    · rw [hstat_g1]
      exact Nat.zero_le 1
    · intro hmem
      exact absurd (hmem_g1.mpr hmem) hty

/-- C10 witness: the theorem at a concrete two-triple graph holding the
type triple and one stale status triple — the old status is replaced by
exactly one new status triple. -/
theorem claim10_witness :
    (uriTriple "task1" rdfType extReleaseTask ∈
      [uriTriple "task1" rdfType extReleaseTask,
       uriTriple "task1" admsStatus "old"]) ∧
    statusTriples
      (persistStatus
        [uriTriple "task1" rdfType extReleaseTask,
         uriTriple "task1" admsStatus "old"] "task1" "new") "task1" =
      [uriTriple "task1" admsStatus "new"] :=
  ⟨List.mem_cons_self _ _,
    (claim10_persistStatus_unique
      [uriTriple "task1" rdfType extReleaseTask,
       uriTriple "task1" admsStatus "old"] "task1" "new").2.2
      (List.mem_cons_self _ _)⟩

/-! ### Claim C3: deprecation removes exactly the snapshot triples -/

/-- `deleteTriples(triples)` (src/unnamed/part_002, lines 461-474; the
current src/lib/dataset.js removeDeprecatedTriples delegates the same
deletion of the parsed snapshot TTL to deleteTriplesFromTtl): the triples
parsed from the previous dataset's snapshot file are deleted from the
public graph with one `DELETE DATA` per UPDATE_BATCH_SIZE chunk.  `DELETE
DATA` removes exactly the listed triples, never a diff against the live
graph. -/
def deleteTriples (pub : List Triple) (ts : List Triple) (b : Nat) : List Triple :=
  (chunkList b ts).foldl (fun g batch => g.filter (fun u => decide (u ∉ batch))) pub

lemma mem_deleteBatches (pub : List Triple) (bs : List (List Triple)) (t : Triple) :
    t ∈ bs.foldl (fun g batch => g.filter (fun u => decide (u ∉ batch))) pub ↔
      t ∈ pub ∧ ∀ c ∈ bs, t ∉ c := by
  induction bs generalizing pub with
  | nil => simp
  | cons c bs ih =>
    simp only [List.foldl_cons]
    rw [ih, List.mem_filter]
    simp only [decide_eq_true_eq, List.mem_cons]
    constructor
    · rintro ⟨⟨h1, h2⟩, h3⟩
      refine ⟨h1, ?_⟩
      intro d hd
      rcases hd with h4 | h4
      · exact h4 ▸ h2
      · exact h3 d h4
    · rintro ⟨h1, h2⟩
      exact ⟨⟨h1, h2 c (Or.inl rfl)⟩, fun d hd => h2 d (Or.inr hd)⟩

/-- C3: deprecating a previous dataset removes from the public graph exactly
the triple set recorded in its snapshot file: a triple survives the
deletion iff it was in the public graph and not in the snapshot.  In
particular any triple contributed by the superseding dataset that is not
recorded in the old snapshot is preserved — nothing beyond the snapshot's
triple set is ever removed. -/
theorem claim3_deprecation_precision (pub snapshot d2inserted : List Triple)
    (b : Nat) (hb : 0 < b) :
    (∀ t, t ∈ deleteTriples pub snapshot b ↔ t ∈ pub ∧ t ∉ snapshot) ∧
    (∀ t ∈ d2inserted, t ∈ pub → t ∉ snapshot → t ∈ deleteTriples pub snapshot b) := by
  have hb0 : b ≠ 0 := by omega
  have hmain : ∀ t, t ∈ deleteTriples pub snapshot b ↔ t ∈ pub ∧ t ∉ snapshot := by
    intro t
    unfold deleteTriples
    rw [mem_deleteBatches]
    have h1 : t ∈ snapshot ↔ ∃ c ∈ chunkList b snapshot, t ∈ c := by
      conv_lhs => rw [← chunkList_flatten b hb0 snapshot]
      exact List.mem_flatten
    constructor
    · rintro ⟨hp, hc⟩
      refine ⟨hp, ?_⟩
      intro hs
      rcases h1.mp hs with ⟨c, hcm, htc⟩
      exact hc c hcm htc
    · rintro ⟨hp, hs⟩
      refine ⟨hp, ?_⟩
      intro c hcm htc
      exact hs (h1.mpr ⟨c, hcm, htc⟩)
  exact ⟨hmain, fun t _ hp hs => (hmain t).mpr ⟨hp, hs⟩⟩

/-- C3 witness: a public graph holding an old snapshot triple and a triple
of the new dataset; deleting the snapshot removes only the former. -/
theorem claim3_witness :
    (0 : Nat) < 10 ∧
    (uriTriple "new" "p" "o" ∈
      deleteTriples [uriTriple "old" "p" "o", uriTriple "new" "p" "o"]
        [uriTriple "old" "p" "o"] 10) ∧
    (uriTriple "old" "p" "o" ∉
      deleteTriples [uriTriple "old" "p" "o", uriTriple "new" "p" "o"]
        [uriTriple "old" "p" "o"] 10) :=
  ⟨by decide,
    ((claim3_deprecation_precision
        [uriTriple "old" "p" "o", uriTriple "new" "p" "o"]
        [uriTriple "old" "p" "o"] [uriTriple "new" "p" "o"] 10 (by decide)).1
      (uriTriple "new" "p" "o")).mpr ⟨by decide, by decide⟩,
    fun hmem =>
      absurd (((claim3_deprecation_precision
          [uriTriple "old" "p" "o", uriTriple "new" "p" "o"]
          [uriTriple "old" "p" "o"] [uriTriple "new" "p" "o"] 10 (by decide)).1
        (uriTriple "old" "p" "o")).mp hmem).2 (by decide)⟩

/-! ### Claim C7: the Term Codec and plain-string literals -/

/-- `xsd:string`, the plain-string datatype ignored by the codec
(src/lib/graph-helpers.js, toTripleStatement). -/
def xsdString : String := "http://www.w3.org/2001/XMLSchema#string"

/-- Boundary model of the external mu library's `sparqlEscapeString`:
literals are written as quoted strings (spec, Term Codec rules). -/
def sparqlEscapeString (v : String) : String := "\"" ++ v ++ "\""

/-- Boundary model of the external mu library's `sparqlEscapeUri`: URI
references are written between angle brackets. -/
def sparqlEscapeUri (v : String) : String := "<" ++ v ++ ">"

/-- JavaScript truthiness of an optional string field of a SPARQL binding:
absent and empty strings are falsy. -/
def optTruthy : Option String → Bool
  | none => false
  | some s => decide (s ≠ "")

/-- The `escape` helper of `toTripleStatement` (src/lib/graph-helpers.js,
lines 113-138): URIs are escaped as URIs; literal and typed-literal terms
get a `^^<datatype>` suffix only when a datatype is present (truthy) and
is not `xsd:string`, else an `@lang` suffix when a language tag is
present, else no suffix; any other term kind falls through to plain string
escaping. -/
def escapeTerm (t : RdfTerm) : String :=
  if t.type = "uri" then sparqlEscapeUri t.value
  else if t.type = "literal" ∨ t.type = "typed-literal" then
    if optTruthy t.datatype = true ∧ t.datatype.getD "" ≠ xsdString then
      sparqlEscapeString t.value ++ "^^" ++ sparqlEscapeUri (t.datatype.getD "")
    else if optTruthy t.lang = true then
      sparqlEscapeString t.value ++ "@" ++ t.lang.getD ""
    else
      sparqlEscapeString t.value
  else
    sparqlEscapeString t.value

/-- `toTripleStatement(triple)` (src/lib/graph-helpers.js, lines 113-138). -/
def toTripleStatement (t : Triple) : String :=
  escapeTerm t.subject ++ " " ++ escapeTerm t.predicate ++ " " ++
    escapeTerm t.object ++ " ."

/-- C7: the codec encodes a literal whose datatype is the plain-string type
`xsd:string` to exactly the same output as the same literal with no
datatype at all: a quoted string with no `^^` suffix, falling back to the
`@lang` suffix when a language tag is present; and a `^^<datatype>` suffix
is emitted exactly when a (truthy) datatype other than `xsd:string` is
present. -/
theorem claim7_plain_string_codec (ty value : String) (lang : Option String)
    (hty : ty = "literal" ∨ ty = "typed-literal") :
    escapeTerm ⟨ty, value, some xsdString, lang⟩ =
      escapeTerm ⟨ty, value, none, lang⟩ ∧
    escapeTerm ⟨ty, value, some xsdString, lang⟩ =
      (if optTruthy lang = true then sparqlEscapeString value ++ "@" ++ lang.getD ""
       else sparqlEscapeString value) ∧
    (∀ dt : String, dt ≠ "" → dt ≠ xsdString →
      escapeTerm ⟨ty, value, some dt, lang⟩ =
        sparqlEscapeString value ++ "^^" ++ sparqlEscapeUri dt) := by
  have hnoturi : ty ≠ "uri" := by
    rcases hty with h | h <;> subst h <;> decide
  have hxsd : ¬ (optTruthy (some xsdString) = true ∧
      (some xsdString).getD "" ≠ xsdString) := by
    rintro ⟨_, hcon⟩
    exact hcon rfl
  have hnone : ¬ (optTruthy (none : Option String) = true ∧
      (none : Option String).getD "" ≠ xsdString) := by
    rintro ⟨hcon, _⟩
    simp [optTruthy] at hcon
  refine ⟨?_, ?_, ?_⟩
  · unfold escapeTerm
    rw [if_neg hnoturi, if_neg hnoturi, if_pos hty, if_pos hty,
        if_neg hxsd, if_neg hnone]
  · unfold escapeTerm
    rw [if_neg hnoturi, if_pos hty, if_neg hxsd]
  · intro dt hdt1 hdt2
    have hpos : optTruthy (some dt) = true ∧ (some dt).getD "" ≠ xsdString := by
      constructor
      · simp [optTruthy, hdt1]
      · simpa using hdt2
    unfold escapeTerm
    rw [if_neg hnoturi, if_pos hty, if_pos hpos]
    rfl

/-- C7 witness: a concrete literal with the `xsd:string` datatype encodes
exactly like the same literal with no datatype. -/
theorem claim7_witness :
    (("literal" : String) = "literal" ∨ ("literal" : String) = "typed-literal") ∧
    escapeTerm ⟨"literal", "hello", some xsdString, none⟩ =
      escapeTerm ⟨"literal", "hello", none, none⟩ :=
  ⟨Or.inl rfl,
    (claim7_plain_string_codec "literal" "hello" none (Or.inl rfl)).1⟩

/-! ### Claim C8: pagination and insert batching counts -/

/-- The sizes of the successive pages read by the `getTriples` loop, as a
pure arithmetic recursion: for a graph of `len` triples the page at
`offset` has `min b (len - offset)` rows. -/
def pageSizes (len b : Nat) : Nat → Nat → Nat → List Nat
  | 0, _, _ => []
  | fuel + 1, offset, count =>
    if offset < count ∧ b ≠ 0 then
      min b (len - offset) :: pageSizes len b fuel (offset + b) count
    else []

lemma fetchLoop_map_length (g : List Triple) (b : Nat) (fuel : Nat) :
    ∀ offset count, (fetchLoop g b fuel offset count).map List.length =
      pageSizes g.length b fuel offset count := by
  induction fuel with
  | zero => intro offset count; rfl
  | succ fuel ih =>
    intro offset count
    simp only [fetchLoop, pageSizes]
    by_cases h : offset < count ∧ b ≠ 0
    · rw [if_pos h, if_pos h, List.map_cons, ih]
      rw [List.length_take, List.length_drop]
    · rw [if_neg h, if_neg h]
      rfl

/-- C8: for every graph with `n` triples and batch size `b > 0`, `fetchAll`
(getTriples) issues exactly `ceil(n / b)` paged reads whose row counts
follow the `min b (n - offset)` page-size sequence and retrieves the whole
graph, and `insertBatch` (insertInGraph) over the fetched triples issues
exactly `ceil(n / b)` insert calls; when the insert batch size equals the
page size the insert chunks are exactly the fetched pages (the same
partitioning). -/
theorem claim8_batching_counts (g : List Triple) (b : Nat) (hb : 0 < b) :
    numPagedReads g b = ceilDiv g.length b ∧
    getTriples g b = g ∧
    numInsertCalls (getTriples g b) b = ceilDiv g.length b ∧
    chunkList b (getTriples g b) = fetchLoop g b g.length 0 g.length ∧
    (fetchLoop g b g.length 0 g.length).map List.length =
      pageSizes g.length b g.length 0 g.length := by
  have hb0 : b ≠ 0 := by omega
  have hget : getTriples g b = g := by
    unfold getTriples
    rw [fetchLoop_flatten g b hb0 g.length 0 g.length (by omega) (le_refl _),
        List.drop_zero]
  refine ⟨?_, hget, ?_, ?_, fetchLoop_map_length g b g.length 0 g.length⟩
  · unfold numPagedReads
    rw [fetchLoop_length g b hb0 g.length 0 g.length (by omega), Nat.sub_zero]
  · unfold numInsertCalls
    rw [hget, chunkList_length b hb0 g]
  · rw [hget]
    unfold chunkList
    rw [fetchLoop_eq_chunkAux g b hb0 g.length 0, List.drop_zero]

/-- The spec's scenario input: a staging graph of 2,500 triples. -/
def g2500 : List Triple := List.replicate 2500 (uriTriple "s" "p" "o")

/-- C8 witness: 2,500 triples with batch size 1,000 give 3 paged reads of
1000/1000/500 rows and 3 insert calls. -/
theorem claim8_witness :
    (0 : Nat) < 1000 ∧
    numPagedReads g2500 1000 = 3 ∧
    numInsertCalls (getTriples g2500 1000) 1000 = 3 ∧
    (fetchLoop g2500 1000 g2500.length 0 g2500.length).map List.length =
      [1000, 1000, 500] := by
  have hlen : g2500.length = 2500 := by
    unfold g2500
    rw [List.length_replicate]
  have h := claim8_batching_counts g2500 1000 (by decide)
  refine ⟨by decide, ?_, ?_, ?_⟩
  · rw [h.1, hlen]
    decide
  · rw [h.2.2.1, hlen]
    decide
  · rw [h.2.2.2.2, hlen]
    decide

/-! ### Claim C9: a shrunken page aborts getTriples -/

/-- `parseBatch(q, offset)` (src/lib/graph-helpers.js, lines 206-211): runs
the paged query and returns the rows, or `null` (here `none`) when the page
has zero result rows. -/
def parseBatch (g : List Triple) (b offset : Nat) : Option (List Triple) :=
  let page := (g.drop offset).take b
  if page.length ≠ 0 then some page else none

/-- The `while (offset < count)` loop of `getTriples` with the null check of
`parseBatch` made explicit: `count` is the stale triple count measured
before the loop, while the pages are read from the current graph `g`.
Spreading a `null` batch (`triples.push(...result)`) throws a TypeError,
modelled as `Except.error`. -/
def fetchLoopE (g : List Triple) (b : Nat) :
    Nat → Nat → Nat → Except Unit (List (List Triple))
  | 0, _, _ => Except.ok []
  | fuel + 1, offset, count =>
    if offset < count ∧ b ≠ 0 then
      match parseBatch g b offset with
      | none => Except.error ()
      | some page =>
        match fetchLoopE g b fuel (offset + b) count with
        | Except.error e => Except.error e
        | Except.ok rest => Except.ok (page :: rest)
    else Except.ok []

/-- `getTriples` (src/lib/graph-helpers.js, lines 44-68) against a graph
that may have changed after the initial `countTriples` call: the loop runs
over the stale `count` but each page reads the current graph `g`. -/
def getTriplesE (count : Nat) (g : List Triple) (b : Nat) :
    Except Unit (List (List Triple)) :=
  if 0 < count then fetchLoopE g b count 0 count else Except.ok []

lemma parseBatch_some (g : List Triple) (b offset : Nat) (page : List Triple)
    (h : parseBatch g b offset = some page) : page ≠ [] := by
  unfold parseBatch at h
  by_cases h1 : ((g.drop offset).take b).length ≠ 0
  · rw [if_pos h1] at h
    injection h with h2
    intro hcon
    exact h1 (by rw [h2, hcon]; rfl)
  · rw [if_neg h1] at h
    exact absurd h (by simp)

lemma fetchLoopE_error (g : List Triple) (b : Nat) (hb : b ≠ 0) (fuel : Nat) :
    ∀ offset count k, count - offset ≤ fuel → offset + k * b < count →
      g.length ≤ offset + k * b →
      fetchLoopE g b fuel offset count = Except.error () := by
  induction fuel with
  | zero =>
    intro offset count k hf hk hlen
    exact absurd hk (by omega)
  | succ fuel ih =>
    intro offset count k hf hk hlen
    have hbp : 0 < b := Nat.pos_of_ne_zero hb
    have hoc : offset < count := by omega
    simp only [fetchLoopE]
    rw [if_pos ⟨hoc, hb⟩]
    by_cases hg : g.length ≤ offset
    · have hnone : parseBatch g b offset = none := by
        unfold parseBatch
        rw [List.drop_eq_nil_of_le hg]
        simp
      rw [hnone]
    · push_neg at hg
      have hsome : parseBatch g b offset = some ((g.drop offset).take b) := by
        unfold parseBatch
        rw [if_pos]
        simp only [List.length_take, List.length_drop]
        omega
      rw [hsome]
      rcases k with _ | k
      · exfalso
        simp only [Nat.zero_mul, Nat.add_zero] at hlen
        omega
      · rw [Nat.succ_mul] at hk hlen
        have herr := ih (offset + b) count k (by omega) (by omega) (by omega)
        rw [herr]

lemma fetchLoopE_ok (g : List Triple) (b : Nat) (hb : b ≠ 0) (fuel : Nat) :
    ∀ offset count pages, count - offset ≤ fuel →
      fetchLoopE g b fuel offset count = Except.ok pages →
      pages.length = ceilDiv (count - offset) b ∧ ∀ p ∈ pages, p ≠ [] := by
  induction fuel with
  | zero =>
    intro offset count pages hf h
    have hp : pages = [] := by
      simpa [fetchLoopE] using h
    subst hp
    have h1 : count - offset = 0 := by omega
    rw [h1, ceilDiv_zero b (Nat.pos_of_ne_zero hb)]
    simp
  | succ fuel ih =>
    intro offset count pages hf h
    have hbp : 0 < b := Nat.pos_of_ne_zero hb
    simp only [fetchLoopE] at h
    by_cases hoc : offset < count
    · rw [if_pos ⟨hoc, hb⟩] at h
      cases hpb : parseBatch g b offset with
      | none =>
        rw [hpb] at h
        exact absurd h (by simp)
      | some page =>
        rw [hpb] at h
        cases hrec : fetchLoopE g b fuel (offset + b) count with
        | error e =>
          rw [hrec] at h
          exact absurd h (by simp)
        | ok rest =>
          rw [hrec] at h
          have hp : pages = page :: rest := by
            have := h
            simp only [Except.ok.injEq] at this
            exact this.symm
          subst hp
          have ihr := ih (offset + b) count rest (by omega) hrec
          constructor
          · simp only [List.length_cons]
            rw [ihr.1]
            have h1 : count - (offset + b) = (count - offset) - b := by omega
            rw [h1, ceilDiv_recurrence (count - offset) b hbp (by omega)]
          · intro p hpm
            rcases List.mem_cons.mp hpm with h1 | h1
            · exact h1 ▸ parseBatch_some g b offset page hpb
            · exact ihr.2 p h1
    · rw [if_neg (fun hcon => hoc hcon.1)] at h
      have hp : pages = [] := by
        simpa using h
      subst hp
      have h1 : count - offset = 0 := by omega
      rw [h1, ceilDiv_zero b hbp]
      simp

/-- C9: when the stale count is positive and some paged read within
`getTriples` lands past the end of the (shrunken) graph — i.e. some loop
offset `k·b` below `count` has no rows left — `parseBatch` returns null and
`getTriples` raises when spreading it (an error result), never a partial
triple list; and every successful run returns exactly `ceil(count / b)`
non-empty pages, never silently fewer. -/
theorem claim9_failfast_pagination (g : List Triple) (count b : Nat) (hb : 0 < b) :
    ((∃ k, k * b < count ∧ g.length ≤ k * b) →
      getTriplesE count g b = Except.error ()) ∧
    (∀ pages, getTriplesE count g b = Except.ok pages →
      pages.length = ceilDiv count b ∧ ∀ p ∈ pages, p ≠ []) := by
  have hb0 : b ≠ 0 := by omega
  constructor
  · rintro ⟨k, hk, hlen⟩
    unfold getTriplesE
    have hc : 0 < count := by omega
    rw [if_pos hc]
    exact fetchLoopE_error g b hb0 count 0 count k (by omega)
      (by simpa using hk) (by simpa using hlen)
  · intro pages h
    unfold getTriplesE at h
    by_cases hc : 0 < count
    · rw [if_pos hc] at h
      have h1 := fetchLoopE_ok g b hb0 count 0 count pages (by omega) h
      simpa using h1
    · rw [if_neg hc] at h
      have hp : pages = [] := by
        simpa using h
      subst hp
      have hc0 : count = 0 := by omega
      subst hc0
      exact ⟨by rw [ceilDiv_zero b hb]; rfl, by simp⟩

/-- C9 witness: the graph shrank to one triple after a stale count of 3 with
batch size 2: the page read at offset 2 returns zero rows and the whole
fetch errors out instead of returning a partial list. -/
theorem claim9_witness :
    (0 : Nat) < 2 ∧
    (1 * 2 < 3 ∧ ([uriTriple "s" "p" "o"] : List Triple).length ≤ 1 * 2) ∧
    getTriplesE 3 [uriTriple "s" "p" "o"] 2 = Except.error () :=
  ⟨by decide, ⟨by decide, by decide⟩,
    (claim9_failfast_pagination [uriTriple "s" "p" "o"] 3 2 (by decide)).1
      ⟨1, by decide, by decide⟩⟩

end DcatPub
